import Mathlib

/-!
Verification of the DeviShell dispatch core (`main_v2.py`) against its
natural-language specification.

The shallow embedding below translates the Python source into Lean:
Python strings are `String`, Python lists are `List`, Python dicts are
association lists (`List (String × α)`, insertion ordered, unique keys),
and the global mutable state threaded through the shell is passed
explicitly.  Fallible operations return sum types; an uncaught Python
exception is a distinguished result constructor.
-/

/-- Python `str.split()` helper: walk the characters, accumulating the
current word (reversed); whitespace ends a word, runs of whitespace
produce no empty words. -/
def splitWSAux : List Char → List Char → List String
  | [], [] => []
  | [], acc => [String.mk acc.reverse]
  | c :: cs, acc =>
    if c.isWhitespace then
      if acc.isEmpty then splitWSAux cs []
      else String.mk acc.reverse :: splitWSAux cs []
    else splitWSAux cs (c :: acc)

/-- Python `str.split()` with no separator argument: split on runs of
whitespace, discarding empty fragments. -/
def splitWS (s : String) : List String := splitWSAux s.toList []

/-- Python `str.lower()` (ASCII case mapping, which covers every name the
shell handles). -/
def lowerStr (s : String) : String := String.mk (s.toList.map Char.toLower)

/-- Character-list version of `str.startswith`. -/
def charsLead : List Char → List Char → Bool
  | [], _ => true
  | _ :: _, [] => false
  | c :: cs, d :: ds => if c = d then charsLead cs ds else false

/-- Python `s.startswith(p)`. -/
def strStartsWith (s p : String) : Bool := charsLead p.toList s.toList

/-- Python `str.strip()`: drop leading and trailing whitespace. -/
def pyStrip (s : String) : String :=
  String.mk (((s.toList.dropWhile Char.isWhitespace).reverse.dropWhile Char.isWhitespace).reverse)

/-- Python `" ".join(tokens)`. -/
def joinSpace : List String → String
  | [] => ""
  | [s] => s
  | s :: rest => s ++ " " ++ joinSpace rest

/-- Python `s[n:]` on strings. -/
def dropStr (n : Nat) (s : String) : String := String.mk (s.toList.drop n)

/-- Python `s[-1].isspace()` (false on the empty string, which the source
guards separately). -/
def lastCharIsSpace (s : String) : Bool :=
  match s.toList.getLast? with
  | some c => c.isWhitespace
  | none => false

/-- Membership test of a Python dict's key view (`k in d`). -/
def namesContain : List String → String → Bool
  | [], _ => false
  | n :: rest, s => if n = s then true else namesContain rest s

/-- Python dict lookup `d[k]` / `d.get(k)` on an association list with
unique keys. -/
def dictLookup : List (String × String) → String → Option String
  | [], _ => none
  | (a, b) :: rest, k => if a = k then some b else dictLookup rest k

/-- Python dict assignment `d[k] = v`: overwrite in place if the key is
present (insertion order kept), else append. -/
def dictInsert (m : List (String × String)) (k v : String) : List (String × String) :=
  if m.any (fun p => p.1 = k) then
    m.map (fun p => if p.1 = k then (k, v) else p)
  else m ++ [(k, v)]

/-- Python `del d[k]`. -/
def dictRemove (m : List (String × String)) (k : String) : List (String × String) :=
  m.filter (fun p => p.1 ≠ k)

/-- The four handler families `execute_command` can hand a token sequence
to; `system` is the PowerShell fallback of `run_system_command`. -/
inductive DispatchTarget
  | builtin (name : String) (args : List String)
  | extended (name : String) (args : List String)
  | plugin (name : String) (tokens : List String)
  | system (tokens : List String)
deriving DecidableEq, Repr

/-- Result of one `execute_command` call: the early return on an empty
token list, the uncaught `IndexError` read of `command[0]` after an alias
expanded to no tokens, or a dispatch to exactly one target. -/
inductive RouterResult
  | noInput
  | indexError
  | dispatch (t : DispatchTarget)
deriving DecidableEq, Repr

/-- The process-wide mutable maps of `main_v2.py` gathered in one record:
`aliases`, the key sets of `BUILTIN_COMMANDS` and `EXTENDED_COMMANDS`,
and `loaded_plugins` (each plugin is its name together with its optional
`handle_command` capability). -/
structure ShellState where
  aliases : List (String × String)
  builtins : List String
  extendedCmds : List String
  plugins : List (String × Option (List String → Bool))

/-- Key set of the source's `BUILTIN_COMMANDS` dict. -/
def BUILTIN_COMMANDS : List String := ["cd", "exit", "quit", "clear", "cls", "history"]

/-- Key set of the source's `EXTENDED_COMMANDS` dict after the single
`update` that registers every extended command. -/
def EXTENDED_COMMANDS : List String :=
  ["config_set", "config_get", "theme", "bookmark", "unbookmark", "alias", "unalias",
   "search", "tree", "mkcd", "touch", "cat", "grep", "copy", "move", "remove",
   "serve", "myip", "port_scan", "sysinfo", "processes", "kill", "env", "diskusage",
   "gitstatus", "gitlog", "gitbranches", "pwgen", "calc", "weather", "encode",
   "decode", "timestamp", "plugins", "help"]

/-- Alias step of `execute_command` (lines 1345-1351): when the lowercased
first token is a key of `aliases`, the token list becomes the expansion's
whitespace-split tokens followed by the original remaining arguments;
otherwise the tokens are unchanged.  The result is not looked up again. -/
def substitute (st : ShellState) (command : List String) : List String :=
  match command with
  | [] => []
  | c0 :: rest =>
    match dictLookup st.aliases (lowerStr c0) with
    | some alias_cmd => splitWS alias_cmd ++ rest
    | none => c0 :: rest

/-- Plugin loop of `execute_command` (lines 1363-1367): walk
`loaded_plugins` in load order, call `handle_command` on the full token
sequence where the capability exists, stop at the first plugin returning
true. -/
def first_plugin_handling : List (String × Option (List String → Bool)) → List String → Option String
  | [], _ => none
  | (pname, cap) :: rest, command =>
    match cap with
    | some handle => if handle command then some pname else first_plugin_handling rest command
    | none => first_plugin_handling rest command

/-- Capacity of the `command_history` deque (`deque(maxlen=100)`). -/
def HISTORY_MAXLEN : Nat := 100

/-- Append on a `deque(maxlen=100)`: add the line at the back and evict
from the front whatever exceeds the capacity. -/
def historyAppend (h : List String) (line : String) : List String :=
  let h2 := h ++ [line]
  h2.drop (h2.length - HISTORY_MAXLEN)

/-- The Router, `execute_command` (lines 1334-1370).  Empty input returns
at once.  Otherwise the space-joined line is appended to the history
deque, alias substitution happens at most once, and the chain
builtin -> extended -> plugins -> PowerShell fallback dispatches the
first match; reading `command[0]` of an empty substituted list is the
uncaught `IndexError`. -/
def execute_command (st : ShellState) (history : List String) (command : List String) :
    List String × RouterResult :=
  match command with
  | [] => (history, RouterResult.noInput)
  | c0 :: rest =>
    let history2 := historyAppend history (joinSpace (c0 :: rest))
    let result : RouterResult :=
      match substitute st (c0 :: rest) with
      | [] => RouterResult.indexError
      | s0 :: sargs =>
        let cname := lowerStr s0
        if namesContain st.builtins cname then
          RouterResult.dispatch (DispatchTarget.builtin cname sargs)
        else if namesContain st.extendedCmds cname then
          RouterResult.dispatch (DispatchTarget.extended cname sargs)
        else
          match first_plugin_handling st.plugins (s0 :: sargs) with
          | some pname => RouterResult.dispatch (DispatchTarget.plugin pname (s0 :: sargs))
          | none => RouterResult.dispatch (DispatchTarget.system (s0 :: sargs))
    (history2, result)

/-- Modelled from the spec's wording of the dispatch chain (section 4.1,
steps 3-6): the fixed first-match-wins order builtin, extended, plugins
in load order, external fallback, applied to the substituted tokens. -/
def dispatchSpec (st : ShellState) (s0 : String) (sargs : List String) : DispatchTarget :=
  let cname := lowerStr s0
  if namesContain st.builtins cname then DispatchTarget.builtin cname sargs
  else if namesContain st.extendedCmds cname then DispatchTarget.extended cname sargs
  else
    match first_plugin_handling st.plugins (s0 :: sargs) with
    | some pname => DispatchTarget.plugin pname (s0 :: sargs)
    | none => DispatchTarget.system (s0 :: sargs)

/-- Line filter of `execute_startup_script` (line 1380): a stripped line
is executed when it is non-blank and its first non-space character is not
`#`. -/
def scriptActive (l : String) : Bool :=
  if pyStrip l = "" then false
  else if strStartsWith (pyStrip l) "#" then false
  else true

/-- Tokens fed to the Router for a startup line, together with the
dispatch outcome (which does not depend on the history). -/
def lineResult (st : ShellState) (l : String) : List String × RouterResult :=
  (splitWS (pyStrip l), (execute_command st [] (splitWS (pyStrip l))).2)

/-- Loop body of `execute_startup_script` (lines 1377-1382): strip each
line, skip blanks and `#` comments, feed the rest through
`execute_command` in file order.  The enclosing `try` sits OUTSIDE the
loop, so an exception raised by one line (the empty-alias `IndexError`)
is caught and reported once but ends the loop; the Bool records whether
that error report fired. -/
def runScriptLines (st : ShellState) (history : List String) :
    List String → List String × (List (List String × RouterResult) × Bool)
  | [] => (history, ([], false))
  | line :: rest =>
    let l := pyStrip line
    if l = "" then runScriptLines st history rest
    else if strStartsWith l "#" then runScriptLines st history rest
    else
      let toks := splitWS l
      let hr := execute_command st history toks
      if hr.2 = RouterResult.indexError then (hr.1, ([(toks, RouterResult.indexError)], true))
      else
        let next := runScriptLines st hr.1 rest
        (next.1, ((toks, hr.2) :: next.2.1, next.2.2))

/-- `execute_startup_script` (lines 1372-1384): `none` models an absent
`STARTUP_SCRIPT` file (the `exists` check fails and nothing happens);
`some lines` models the file's lines. -/
def execute_startup_script (st : ShellState) (history : List String) :
    Option (List String) → List String × (List (List String × RouterResult) × Bool)
  | none => (history, ([], false))
  | some lines => runScriptLines st history lines

/-- Outcome of preparing one plugin module in `load_plugins`:
`specNone` models `importlib.util.spec_from_file_location` returning a
falsy spec/loader, `raises` an exception anywhere during loading, and
`loaded b` a successfully executed module where `b` says whether it has
the `register` entry point. -/
inductive ModuleLoad
  | specNone
  | raises
  | loaded (hasRegister : Bool)
deriving DecidableEq, Repr

/-- One console message printed by `load_plugins`: the green success line
or the red failure line, each carrying the plugin's stem name. -/
inductive PluginReport
  | success (name : String)
  | failure (name : String)
deriving DecidableEq, Repr

/-- `load_plugins` (lines 191-208) over the directory scan, given as the
list of module stems with their load outcomes (stems of distinct files
in one directory are distinct).  Returns the keys inserted into
`loaded_plugins` and the reports printed, both in scan order.  The
`try/except` is inside the loop, so one module's failure does not affect
the others; a module that loads but lacks `register` is skipped with no
entry and no report. -/
def load_plugins : List (String × ModuleLoad) → List String × List PluginReport
  | [] => ([], [])
  | (pname, m) :: rest =>
    match m with
    | ModuleLoad.specNone => load_plugins rest
    | ModuleLoad.raises =>
      let r := load_plugins rest
      (r.1, PluginReport.failure pname :: r.2)
    | ModuleLoad.loaded true =>
      let r := load_plugins rest
      (pname :: r.1, PluginReport.success pname :: r.2)
    | ModuleLoad.loaded false => load_plugins rest

/-- Loaded-plugin names a file list should produce, written from the
spec's words: exactly the modules that load successfully and expose the
entry point, in scan order. -/
def loadedOf (files : List (String × ModuleLoad)) : List String :=
  files.filterMap (fun p => if p.2 = ModuleLoad.loaded true then some p.1 else none)

/-- Reports `load_plugins` prints, characterized per module outcome. -/
def reportsOf (files : List (String × ModuleLoad)) : List PluginReport :=
  files.filterMap (fun p =>
    match p.2 with
    | ModuleLoad.raises => some (PluginReport.failure p.1)
    | ModuleLoad.loaded true => some (PluginReport.success p.1)
    | _ => none)

/-- Exception classes the prompt-cache code interacts with:
`git.InvalidGitRepositoryError` and `TypeError` are the two the outer
handler catches (line 255); `git.GitCommandError` and a catch-all stand
for every other class a GitPython query can raise. -/
inductive PyExc
  | invalidGitRepo
  | typeError
  | gitCommandError
  | otherError
deriving DecidableEq, Repr

/-- The `PROMPT_CACHE` global (lines 44-51). -/
structure PromptCache where
  cwd : String
  venv : String
  git_status : String
  git_dirty : Bool
  git_ahead : Nat
  git_behind : Nat
deriving DecidableEq, Repr

/-- Python `os.path.basename` restricted to `/`-separated paths. -/
def basename (s : String) : String :=
  String.mk ((s.toList.reverse.takeWhile (fun c => c ≠ '/')).reverse)

/-- Outcomes of the five GitPython calls `update_prompt_cache` makes, in
program order: `git.Repo(search_parent_directories=True)`,
`repo.active_branch.name`, `repo.is_dirty()`, and the two
`iter_commits` counts.  An `Except.error` is that call raising. -/
structure VcsProbe where
  locate : Except PyExc Unit
  activeBranch : Except PyExc String
  isDirty : Except PyExc Bool
  aheadCount : Except PyExc Nat
  behindCount : Except PyExc Nat

/-- Venv prompt fragment (lines 233-234): `"(basename) "` when
`VIRTUAL_ENV` is set, the empty string otherwise. -/
def venvLabel (venvVar : Option String) : String :=
  match venvVar with
  | some v => "(" ++ basename v ++ ") "
  | none => ""

/-- The outer `except (git.InvalidGitRepositoryError, TypeError)` handler
(lines 255-259): those two classes reset the four git fields; any other
class propagates out of `update_prompt_cache`. -/
def handleOuterExc (e : PyExc) (c : PromptCache) : Except PyExc PromptCache :=
  if e = PyExc.invalidGitRepo ∨ e = PyExc.typeError then
    Except.ok { c with git_status := "", git_dirty := false, git_ahead := 0, git_behind := 0 }
  else Except.error e

/-- `update_prompt_cache` (lines 228-259).  `cwd` and the venv label are
set unconditionally; with `show_git` enabled the git queries run in
order, the inner bare `except` (lines 249-251) resets only ahead/behind
on any failure there, and the outer handler treats only its two classes.
An `Except.error` result is an exception propagating to the caller. -/
def update_prompt_cache (cwd : String) (venvVar : Option String) (showGit : Bool)
    (probe : VcsProbe) (cache : PromptCache) : Except PyExc PromptCache :=
  let cache := { cache with cwd := cwd, venv := venvLabel venvVar }
  if showGit then
    match probe.locate with
    | Except.error e => handleOuterExc e cache
    | Except.ok _ =>
      match probe.activeBranch with
      | Except.error e => handleOuterExc e cache
      | Except.ok branch =>
        match probe.isDirty with
        | Except.error e => handleOuterExc e cache
        | Except.ok dirty =>
          let ab : Nat × Nat :=
            match probe.aheadCount with
            | Except.error _ => (0, 0)
            | Except.ok a =>
              match probe.behindCount with
              | Except.error _ => (0, 0)
              | Except.ok b => (a, b)
          Except.ok { cache with
                      git_status := "git:(" ++ branch ++ ")",
                      git_dirty := dirty,
                      git_ahead := ab.1,
                      git_behind := ab.2 }
  else Except.ok cache

/-- One completion candidate: the inserted text and the displayed text
(`prompt_toolkit` shows the text itself when no display is given). -/
structure Candidate where
  text : String
  display : String
deriving DecidableEq, Repr

/-- Python `os.path.split` restricted to `/`-separated paths: the part
before the last separator and the part after it. -/
def splitPath (s : String) : String × String :=
  let cs := s.toList
  let base := (cs.reverse.takeWhile (fun c => c ≠ '/')).reverse
  let dir := cs.take (cs.length - base.length - 1)
  (String.mk dir, String.mk base)

/-- Python `os.path.join` restricted to `/`-separated paths. -/
def joinPath (d e : String) : String := if d = "" then e else d ++ "/" ++ e

/-- Read-only environment of `DeviShellCompleter`: the command-name list
it was constructed with, the `aliases` and `bookmarks` globals, and the
filesystem calls of the argument branch (`listdir` returning `none`
models an `OSError` being raised, which the source catches into no
candidates). -/
structure CompleterEnv where
  commands : List String
  aliases : List (String × String)
  bookmarks : List (String × String)
  expanduser : String → String
  isdir : String → Bool
  listdir : String → Option (List String)

/-- `DeviShellCompleter.get_completions` (lines 307-348) as a function
from the input text to the finite candidate list it yields, in yield
order. -/
def get_completions (env : CompleterEnv) (text : String) : List Candidate :=
  let words := splitWS text
  if text = "" then []
  else if lastCharIsSpace text then []
  else
    let current := words.getLastD ""
    if words.length = 1 then
      ((env.commands.filter (fun c => strStartsWith (lowerStr c) (lowerStr current))).map
        (fun c => ⟨c, c⟩))
      ++ (((env.aliases.map Prod.fst).filter
            (fun a => strStartsWith (lowerStr a) (lowerStr current))).map
        (fun a => ⟨a, a ++ " (alias)"⟩))
      ++ (if strStartsWith current "@" then
            ((env.bookmarks.map Prod.fst).filter
              (fun b => strStartsWith (lowerStr b) (lowerStr (dropStr 1 current)))).map
              (fun b => ⟨"@" ++ b, "@" ++ b⟩)
          else [])
    else
      let cw := env.expanduser current
      let dir0 := (splitPath cw).1
      let frag := (splitPath cw).2
      let dir := if dir0 = "" then "." else dir0
      if env.isdir dir then
        match env.listdir dir with
        | some entries =>
          (entries.filter (fun e => strStartsWith (lowerStr e) (lowerStr frag))).map
            (fun e => ⟨e, e ++ (if env.isdir (joinPath dir e) then "/" else "")⟩)
        | none => []
      else []

/-- One persisted name-to-string store (`aliases` or `bookmarks`): the
in-memory dict and the copy on its backing JSON file. -/
structure Store where
  mem : List (String × String)
  disk : List (String × String)
deriving DecidableEq, Repr

/-- `save_aliases` / `save_bookmarks` (lines 165-171, 183-189): dump the
whole in-memory map to the file; a write failure is caught inside and
only reported, so `saveOk = false` leaves the disk copy unchanged while
memory keeps its mutation. -/
def saveStore (saveOk : Bool) (s : Store) : Store :=
  if saveOk then { s with disk := s.mem } else s

/-- `cmd_alias` (lines 528-557): no arguments lists, one argument shows,
two or more set `aliases[name] = " ".join(args[1:])` and save. -/
def cmd_alias (saveOk : Bool) (s : Store) (args : List String) : Store :=
  match args with
  | [] => s
  | [_] => s
  | name :: a :: rest =>
    saveStore saveOk { s with mem := dictInsert s.mem name (joinSpace (a :: rest)) }

/-- `cmd_unalias` (lines 559-571): delete and save when present,
otherwise report and leave both copies alone. -/
def cmd_unalias (saveOk : Bool) (s : Store) (args : List String) : Store :=
  match args with
  | [] => s
  | name :: _ =>
    if (dictLookup s.mem name).isSome then
      saveStore saveOk { s with mem := dictRemove s.mem name }
    else s

/-- `cmd_bookmark` add branch (lines 499-511): the target (second
argument, defaulting to the current directory) goes through
`os.path.abspath(os.path.expanduser(.))` — modelled by `resolve` — and
is stored and saved only when it is a directory. -/
def cmd_bookmark (isDirF : String → Bool) (resolve : String → String) (cwd : String)
    (saveOk : Bool) (s : Store) (args : List String) : Store :=
  match args with
  | [] => s
  | name :: rest =>
    let target := resolve (match rest with | [] => cwd | t :: _ => t)
    if isDirF target then
      saveStore saveOk { s with mem := dictInsert s.mem name target }
    else s

/-- `cmd_unbookmark` (lines 513-525). -/
def cmd_unbookmark (saveOk : Bool) (s : Store) (args : List String) : Store :=
  match args with
  | [] => s
  | name :: _ =>
    if (dictLookup s.mem name).isSome then
      saveStore saveOk { s with mem := dictRemove s.mem name }
    else s

/-- `json.load` of a flat string-to-string object: Python builds a dict
by inserting the document's pairs in order (later duplicates win), so a
load is the insertion fold over the on-disk pair list. -/
def loadDict (disk : List (String × String)) : List (String × String) :=
  disk.foldl (fun m p => dictInsert m p.1 p.2) []

/-- The shell state right after startup with no user aliases and no
plugins. -/
def emptyShell : ShellState := ShellState.mk [] BUILTIN_COMMANDS EXTENDED_COMMANDS []

/-- A state where the name `cd` is registered both as a Builtin and as an
Extended command, to exercise the shadowing rule. -/
def shadowShell : ShellState :=
  ShellState.mk [] BUILTIN_COMMANDS ("cd" :: EXTENDED_COMMANDS) []

/-- Two aliases where the first expands to the (distinct) name of the
second. -/
def aliasChainShell : ShellState :=
  ShellState.mk [("a", "b"), ("b", "c")] BUILTIN_COMMANDS EXTENDED_COMMANDS []

/-- An alias whose stored expansion is the empty string (reachable by
loading `aliases.json` from disk). -/
def emptyAliasShell : ShellState :=
  ShellState.mk [("x", "")] BUILTIN_COMMANDS EXTENDED_COMMANDS []

/-- An alias whose stored expansion is whitespace only. -/
def wsAliasShell : ShellState :=
  ShellState.mk [("e", " ")] BUILTIN_COMMANDS EXTENDED_COMMANDS []

/-- A well-behaved alias for an extended command. -/
def gsAliasShell : ShellState :=
  ShellState.mk [("gs", "gitstatus")] BUILTIN_COMMANDS EXTENDED_COMMANDS []

/-- Startup-script scenario state: the first script line hits the
empty-expansion alias. -/
def boomShell : ShellState :=
  ShellState.mk [("boom", "")] BUILTIN_COMMANDS EXTENDED_COMMANDS []

/-- Probe of a repository on branch `main`, clean, whose ahead-count
query raises (for example `git.GitCommandError` when no matching remote
branch exists). -/
def aheadFailProbe : VcsProbe :=
  VcsProbe.mk (Except.ok ()) (Except.ok "main") (Except.ok false)
    (Except.error PyExc.gitCommandError) (Except.ok 0)

/-- Probe of a directory enclosed in no repository: locating raises
`git.InvalidGitRepositoryError`. -/
def noRepoProbe : VcsProbe :=
  VcsProbe.mk (Except.error PyExc.invalidGitRepo) (Except.error PyExc.invalidGitRepo)
    (Except.error PyExc.invalidGitRepo) (Except.error PyExc.invalidGitRepo)
    (Except.error PyExc.invalidGitRepo)

/-- The `PROMPT_CACHE` dict as initialized at lines 44-51 (the `None`
initial cwd modelled as the empty string). -/
def initialPromptCache : PromptCache := PromptCache.mk "" "" "" false 0 0

/-- Completer environment of the spec's example: commands `search`,
`serve`, `sysinfo` and nothing else. -/
def exampleCompleterEnv : CompleterEnv :=
  CompleterEnv.mk ["search", "serve", "sysinfo"] [] [] id (fun _ => false) (fun _ => none)

/-- Completer environment with the full startup command list, one alias
and one bookmark. -/
def richCompleterEnv : CompleterEnv :=
  CompleterEnv.mk (BUILTIN_COMMANDS ++ EXTENDED_COMMANDS) [("cls2", "clear")]
    [("code", "/home/u/code")] id (fun _ => false) (fun _ => none)

theorem execute_command_fst (st : ShellState) (h : List String) (c0 : String)
    (rest : List String) :
    (execute_command st h (c0 :: rest)).1 = historyAppend h (joinSpace (c0 :: rest)) := rfl

theorem execute_command_snd_hist (st : ShellState) (h h2 : List String) (c : List String) :
    (execute_command st h c).2 = (execute_command st h2 c).2 := by
  cases c <;> rfl

theorem execute_command_snd_sub (st : ShellState) (h : List String) (c0 s0 : String)
    (rest sargs : List String) (hsub : substitute st (c0 :: rest) = s0 :: sargs) :
    (execute_command st h (c0 :: rest)).2 = RouterResult.dispatch (dispatchSpec st s0 sargs) := by
  have hstep : (execute_command st h (c0 :: rest)).2 =
      (match substitute st (c0 :: rest) with
       | [] => RouterResult.indexError
       | s0 :: sargs =>
         let cname := lowerStr s0
         if namesContain st.builtins cname then
           RouterResult.dispatch (DispatchTarget.builtin cname sargs)
         else if namesContain st.extendedCmds cname then
           RouterResult.dispatch (DispatchTarget.extended cname sargs)
         else
           match first_plugin_handling st.plugins (s0 :: sargs) with
           | some pname => RouterResult.dispatch (DispatchTarget.plugin pname (s0 :: sargs))
           | none => RouterResult.dispatch (DispatchTarget.system (s0 :: sargs))) := rfl
  rw [hstep, hsub]
  cases hb : namesContain st.builtins (lowerStr s0)
  · cases he : namesContain st.extendedCmds (lowerStr s0)
    · cases hp : first_plugin_handling st.plugins (s0 :: sargs) <;>
        simp [dispatchSpec, hb, he, hp]
    · simp [dispatchSpec, hb, he]
  · simp [dispatchSpec, hb]

theorem dispatchSpec_builtin (st : ShellState) (s0 : String) (sargs : List String)
    (hb : namesContain st.builtins (lowerStr s0) = true) :
    dispatchSpec st s0 sargs = DispatchTarget.builtin (lowerStr s0) sargs := by
  simp [dispatchSpec, hb]

/-- C1 (amended): whenever the token sequence after the single alias
substitution is non-empty, `execute_command` dispatches to exactly one
target, namely the one the spec's fixed first-match-wins chain
(builtin, then extended, then plugins in load order, then the external
interpreter) selects; and a name present among the Builtins always
dispatches to the Builtin, so a same-named Extended entry is unreachable.
The non-emptiness proviso is forced by the empty-expansion failure shown
in the counterexample. -/
theorem execute_command_dispatch_chain (st : ShellState) (h : List String)
    (command : List String) (s0 : String) (sargs : List String)
    (hsub : substitute st command = s0 :: sargs) :
    (execute_command st h command).2 = RouterResult.dispatch (dispatchSpec st s0 sargs) ∧
    (namesContain st.builtins (lowerStr s0) = true →
      dispatchSpec st s0 sargs = DispatchTarget.builtin (lowerStr s0) sargs) := by
  constructor
  · cases command with
    | nil => simp [substitute] at hsub
    | cons c0 rest => exact execute_command_snd_sub st h c0 s0 rest sargs hsub
  · exact dispatchSpec_builtin st s0 sargs

/-- Witness for C1: in a state registering `cd` both as a Builtin and as
an Extended command, the line `cd /tmp` dispatches to the Builtin. -/
theorem execute_command_dispatch_chain_witness :
    (execute_command shadowShell [] ["cd", "/tmp"]).2
      = RouterResult.dispatch (dispatchSpec shadowShell "cd" ["/tmp"]) ∧
    dispatchSpec shadowShell "cd" ["/tmp"] = DispatchTarget.builtin "cd" ["/tmp"] := by
  have T := execute_command_dispatch_chain shadowShell [] ["cd", "/tmp"] "cd" ["/tmp"] (by decide)
  exact ⟨T.1, by
    have hb := T.2 (by decide)
    simpa using hb⟩

/-- Counterexample to C1 as stated: with the reachable alias store
mapping `x` to the empty expansion, the non-empty input `["x"]` makes
`execute_command` raise `IndexError`, so none of the four dispatch
targets executes. -/
theorem execute_command_empty_alias_no_dispatch :
    (execute_command emptyAliasShell [] ["x"]).2 = RouterResult.indexError := by decide

/-- C2 (amended): alias substitution happens at most once — the
substituted tokens are not looked up in the alias store again — so for
every alias whose expansion's first token does not itself (after
lowercasing) name a stored alias, dispatching the alias followed by
trailing arguments yields the same dispatch outcome as dispatching the
expansion's tokens followed by those arguments directly.  The original
side condition (expansion does not start with the alias's own name) is
too weak: the counterexample expands one alias into a different alias. -/
theorem alias_substitution_once_equiv (st : ShellState) (h h2 : List String)
    (name exp : String) (rest : List String) (e0 : String) (t : List String)
    (halias : dictLookup st.aliases (lowerStr name) = some exp)
    (hsplit : splitWS exp = e0 :: t)
    (hnot : dictLookup st.aliases (lowerStr e0) = none) :
    (execute_command st h (name :: rest)).2
      = (execute_command st h2 (splitWS exp ++ rest)).2 := by
  have hs1 : substitute st (name :: rest) = e0 :: (t ++ rest) := by
    simp [substitute, halias, hsplit]
  have hs2 : substitute st (e0 :: (t ++ rest)) = e0 :: (t ++ rest) := by
    simp [substitute, hnot]
  rw [execute_command_snd_sub st h name e0 rest (t ++ rest) hs1, hsplit]
  rw [show (e0 :: t) ++ rest = e0 :: (t ++ rest) from rfl]
  rw [execute_command_snd_sub st h2 e0 e0 (t ++ rest) (t ++ rest) hs2]

/-- Witness for C2: `gs` aliased to `gitstatus`; the line `gs -v` and the
line `gitstatus -v` dispatch identically. -/
theorem alias_substitution_once_equiv_witness :
    (execute_command gsAliasShell [] ["gs", "-v"]).2
      = (execute_command gsAliasShell [] (splitWS "gitstatus" ++ ["-v"])).2 :=
  alias_substitution_once_equiv gsAliasShell [] [] "gs" "gitstatus" ["-v"] "gitstatus" []
    (by decide) (by decide) (by decide)

/-- Counterexample to C2 as stated: aliases `a -> b` and `b -> c`.  The
expansion `b` does not start with the alias's own name `a`, yet the line
`a` dispatches the external command `b` while the expansion line `b`
dispatches the external command `c`. -/
theorem alias_chain_counterexample :
    dictLookup aliasChainShell.aliases "a" = some "b" ∧
    strStartsWith "b" "a" = false ∧
    (execute_command aliasChainShell [] ["a"]).2
      = RouterResult.dispatch (DispatchTarget.system ["b"]) ∧
    (execute_command aliasChainShell [] ["b"]).2
      = RouterResult.dispatch (DispatchTarget.system ["c"]) := by decide

/-- C10: with an alias whose stored expansion has no tokens (empty or
whitespace-only, reachable from `aliases.json`), the input consisting of
only that alias name makes the substituted token list empty, and the
read of `command[0]` in `execute_command` is an uncaught `IndexError`
rather than a reported, non-fatal error: the call produces no dispatch at
all. -/
theorem empty_alias_expansion_index_error :
    (execute_command wsAliasShell [] ["e"]).2 = RouterResult.indexError := by decide

theorem scriptActive_iff (l : String) :
    scriptActive l = true ↔ (pyStrip l ≠ "" ∧ strStartsWith (pyStrip l) "#" = false) := by
  unfold scriptActive
  split_ifs with h1 h2 <;> simp_all

theorem runScriptLines_skip (st : ShellState) (h : List String) (line : String)
    (rest : List String) (hs : scriptActive line = false) :
    runScriptLines st h (line :: rest) = runScriptLines st h rest := by
  by_cases h1 : pyStrip line = ""
  · simp [runScriptLines, h1]
  · by_cases h2 : strStartsWith (pyStrip line) "#" = true
    · simp [runScriptLines, h1, h2]
    · exact absurd ((scriptActive_iff line).mpr ⟨h1, by simpa using h2⟩) (by simp [hs])

theorem runScriptLines_active (st : ShellState) (h : List String) (line : String)
    (rest : List String) (hs : scriptActive line = true) :
    runScriptLines st h (line :: rest) =
      (if (execute_command st h (splitWS (pyStrip line))).2 = RouterResult.indexError then
        ((execute_command st h (splitWS (pyStrip line))).1,
          ([(splitWS (pyStrip line), RouterResult.indexError)], true))
      else
        ((runScriptLines st (execute_command st h (splitWS (pyStrip line))).1 rest).1,
         ((splitWS (pyStrip line), (execute_command st h (splitWS (pyStrip line))).2) ::
            (runScriptLines st (execute_command st h (splitWS (pyStrip line))).1 rest).2.1,
          (runScriptLines st (execute_command st h (splitWS (pyStrip line))).1 rest).2.2))) := by
  obtain ⟨h1, h2⟩ := (scriptActive_iff line).mp hs
  simp [runScriptLines, h1, h2]

theorem runScriptLines_ok (st : ShellState) (lines : List String)
    (hok : ∀ l ∈ lines, scriptActive l = true → (lineResult st l).2 ≠ RouterResult.indexError) :
    ∀ h, (runScriptLines st h lines).2
      = ((lines.filter scriptActive).map (lineResult st), false) := by
  induction lines with
  | nil => intro h; rfl
  | cons line rest ih =>
    have hokr : ∀ l ∈ rest, scriptActive l = true → (lineResult st l).2 ≠ RouterResult.indexError :=
      fun l hl => hok l (List.mem_cons_of_mem _ hl)
    intro h
    cases hs : scriptActive line with
    | false =>
      rw [runScriptLines_skip st h line rest hs]
      simp only [List.filter_cons, hs, Bool.false_eq_true, if_false]
      exact ih hokr h
    | true =>
      have hhist : (execute_command st h (splitWS (pyStrip line))).2 = (lineResult st line).2 :=
        execute_command_snd_hist st h [] (splitWS (pyStrip line))
      have hne : (execute_command st h (splitWS (pyStrip line))).2 ≠ RouterResult.indexError := by
        rw [hhist]; exact hok line (List.mem_cons_self line rest) hs
      rw [runScriptLines_active st h line rest hs, if_neg hne]
      simp only [List.filter_cons, hs, if_true, List.map_cons]
      rw [ih hokr ((execute_command st h (splitWS (pyStrip line))).1)]
      refine congrArg (fun x => (x, false)) ?_
      refine congrArg (fun p => p :: (rest.filter scriptActive).map (lineResult st)) ?_
      simp [lineResult, hhist]

theorem runScriptLines_abort (st : ShellState) (lines : List String)
    (hok : ∀ l ∈ lines, scriptActive l = true → (lineResult st l).2 ≠ RouterResult.indexError)
    (bad : String) (post : List String)
    (hact : scriptActive bad = true)
    (hfail : (lineResult st bad).2 = RouterResult.indexError) :
    ∀ h, (runScriptLines st h (lines ++ bad :: post)).2
      = ((lines.filter scriptActive).map (lineResult st)
          ++ [(splitWS (pyStrip bad), RouterResult.indexError)], true) := by
  induction lines with
  | nil =>
    intro h
    have hfh : (execute_command st h (splitWS (pyStrip bad))).2 = RouterResult.indexError := by
      rw [execute_command_snd_hist st h [] (splitWS (pyStrip bad))]; exact hfail
    rw [List.nil_append, runScriptLines_active st h bad post hact, if_pos hfh]
    rfl
  | cons line rest ih =>
    have hokr : ∀ l ∈ rest, scriptActive l = true → (lineResult st l).2 ≠ RouterResult.indexError :=
      fun l hl => hok l (List.mem_cons_of_mem _ hl)
    intro h
    cases hs : scriptActive line with
    | false =>
      rw [List.cons_append, runScriptLines_skip st h line (rest ++ bad :: post) hs]
      simp only [List.filter_cons, hs, Bool.false_eq_true, if_false]
      exact ih hokr h
    | true =>
      have hhist : (execute_command st h (splitWS (pyStrip line))).2 = (lineResult st line).2 :=
        execute_command_snd_hist st h [] (splitWS (pyStrip line))
      have hne : (execute_command st h (splitWS (pyStrip line))).2 ≠ RouterResult.indexError := by
        rw [hhist]; exact hok line (List.mem_cons_self line rest) hs
      rw [List.cons_append, runScriptLines_active st h line (rest ++ bad :: post) hs, if_neg hne]
      simp only [List.filter_cons, hs, if_true, List.map_cons]
      rw [ih hokr ((execute_command st h (splitWS (pyStrip line))).1)]
      refine congrArg (fun x => (x, true)) ?_
      rw [List.cons_append]
      refine congrArg (fun p => p :: ((rest.filter scriptActive).map (lineResult st)
        ++ [(splitWS (pyStrip bad), RouterResult.indexError)])) ?_
      simp [lineResult, hhist]

/-- C3 (amended): when the startup script file exists, its lines are
processed in file order; blank lines and lines whose first non-space
character is `#` are skipped, every other line's whitespace-split tokens
go through the Router synchronously, and absence of the file is not an
error.  However the error handling wraps the whole loop, not each line:
when every active line succeeds they all run, but a failure raised while
executing one line is reported once and STOPS execution of the
subsequent lines (contrary to the claim as stated — see the
counterexample). -/
theorem startup_script_behavior (st : ShellState) (h : List String) (lines : List String)
    (hok : ∀ l ∈ lines, scriptActive l = true → (lineResult st l).2 ≠ RouterResult.indexError) :
    execute_startup_script st h none = (h, ([], false)) ∧
    (execute_startup_script st h (some lines)).2
      = ((lines.filter scriptActive).map (lineResult st), false) ∧
    (∀ bad post, scriptActive bad = true →
      (lineResult st bad).2 = RouterResult.indexError →
      (execute_startup_script st h (some (lines ++ bad :: post))).2
        = ((lines.filter scriptActive).map (lineResult st)
            ++ [(splitWS (pyStrip bad), RouterResult.indexError)], true)) := by
  refine ⟨rfl, runScriptLines_ok st lines hok h, ?_⟩
  intro bad post hact hfail
  exact runScriptLines_abort st lines hok bad post hact hfail h

/-- Witness for C3: a script of one comment, one blank and one good line
runs the good line only; appending the failing line `boom` reports the
failure and executes nothing after it. -/
theorem startup_script_behavior_witness :
    execute_startup_script boomShell [] none = ([], ([], false)) ∧
    (execute_startup_script boomShell [] (some ["# setup", "", "help"])).2
      = ((["# setup", "", "help"].filter scriptActive).map (lineResult boomShell), false) ∧
    (execute_startup_script boomShell [] (some (["# setup", "", "help"] ++ ["boom"]))).2
      = ((["# setup", "", "help"].filter scriptActive).map (lineResult boomShell)
          ++ [(splitWS (pyStrip "boom"), RouterResult.indexError)], true) := by
  have T := startup_script_behavior boomShell [] ["# setup", "", "help"] (by decide)
  exact ⟨T.1, T.2.1, T.2.2 "boom" [] (by decide) (by decide)⟩

/-- Counterexample to C3 as stated: with `boom` aliased to the empty
expansion, the two-line script `boom`, `help` fails on the first line and
the `help` line is never fed through the Router, because the
`try/except` of `execute_startup_script` encloses the whole loop. -/
theorem startup_script_abort_counterexample :
    execute_startup_script boomShell [] (some ["boom", "help"])
      = (["boom"], ([(["boom"], RouterResult.indexError)], true)) := by decide

/-- C4 (amended): plugin load failures are isolated per module — the
loaded map and the report list decompose pointwise over the directory's
modules, so one module's outcome never affects another's: a module that
raises during load is omitted and reported with its name, and a
directory with one valid plugin and one plugin that throws yields
exactly one loaded entry.  However a module that loads but lacks the
`register` entry point is omitted SILENTLY, with no report carrying its
name (contrary to the claim's "missing entry point ... reported" — see
the counterexample); a falsy module spec is likewise skipped silently. -/
theorem load_plugins_isolation (files : List (String × ModuleLoad)) :
    (load_plugins files).1 = loadedOf files ∧
    (load_plugins files).2 = reportsOf files ∧
    load_plugins [("good", ModuleLoad.loaded true), ("bad", ModuleLoad.raises)]
      = (["good"], [PluginReport.success "good", PluginReport.failure "bad"]) := by
  refine ⟨?_, ?_, by decide⟩ <;>
  · induction files with
    | nil => rfl
    | cons p rest ih =>
      obtain ⟨pname, m⟩ := p
      cases m with
      | specNone => simpa [load_plugins, loadedOf, reportsOf] using ih
      | raises => simpa [load_plugins, loadedOf, reportsOf] using ih
      | loaded b => cases b <;> simpa [load_plugins, loadedOf, reportsOf] using ih

/-- Counterexample to C4 as stated: a module that loads fine but has no
`register` entry point is omitted from the loaded map, yet the report
list is empty — the failure is not "reported with that plugin's name". -/
theorem load_plugins_unreported_counterexample :
    load_plugins [("noreg", ModuleLoad.loaded false)] = ([], []) := by decide

/-- C5 (amended): `update_prompt_cache` resets all four VCS fields to
their empty/zero defaults when locating the repository or querying the
branch raises one of the two classes the outer handler catches
(`git.InvalidGitRepositoryError`, `TypeError`); in particular a refresh
outside any version-controlled directory yields exactly those defaults
without raising.  But a failure of the ahead/behind queries resets ONLY
ahead/behind, leaving the branch and dirty fields set (contrary to the
claim's "resets all VCS fields" — see the counterexample), and a query
failure of any other exception class propagates out of the refresh. -/
theorem update_prompt_cache_vcs_defaults (cwd : String) (venvVar : Option String)
    (probe : VcsProbe) (cache : PromptCache) :
    (probe.locate = Except.error PyExc.invalidGitRepo →
      update_prompt_cache cwd venvVar true probe cache
        = Except.ok { cache with
            cwd := cwd, venv := venvLabel venvVar, git_status := "",
            git_dirty := false, git_ahead := 0, git_behind := 0 }) ∧
    (∀ e, (e = PyExc.invalidGitRepo ∨ e = PyExc.typeError) →
      probe.locate = Except.ok () → probe.activeBranch = Except.error e →
      update_prompt_cache cwd venvVar true probe cache
        = Except.ok { cache with
            cwd := cwd, venv := venvLabel venvVar, git_status := "",
            git_dirty := false, git_ahead := 0, git_behind := 0 }) ∧
    (∀ e branch dirty,
      probe.locate = Except.ok () → probe.activeBranch = Except.ok branch →
      probe.isDirty = Except.ok dirty → probe.aheadCount = Except.error e →
      update_prompt_cache cwd venvVar true probe cache
        = Except.ok { cache with
            cwd := cwd, venv := venvLabel venvVar,
            git_status := "git:(" ++ branch ++ ")", git_dirty := dirty,
            git_ahead := 0, git_behind := 0 }) ∧
    (∀ e branch,
      e ≠ PyExc.invalidGitRepo → e ≠ PyExc.typeError →
      probe.locate = Except.ok () → probe.activeBranch = Except.ok branch →
      probe.isDirty = Except.error e →
      update_prompt_cache cwd venvVar true probe cache = Except.error e) := by
  obtain ⟨loc, br, dirt, ah, bh⟩ := probe
  refine ⟨?_, ?_, ?_, ?_⟩
  · intro h1
    simp only at h1
    subst h1
    simp [update_prompt_cache, handleOuterExc]
  · rintro e (rfl | rfl) h1 h2 <;> simp only at h1 h2 <;> subst h1 <;> subst h2 <;>
      simp [update_prompt_cache, handleOuterExc]
  · intro e branch dirty h1 h2 h3 h4
    simp only at h1 h2 h3 h4
    subst h1; subst h2; subst h3; subst h4
    simp [update_prompt_cache]
  · intro e branch he1 he2 h1 h2 h3
    simp only at h1 h2 h3
    subst h1; subst h2; subst h3
    have hne : ¬(e = PyExc.invalidGitRepo ∨ e = PyExc.typeError) := by
      rintro (rfl | rfl) <;> simp_all
    simp [update_prompt_cache, handleOuterExc, hne]

/-- Witness for C5: refreshing outside any repository (the locate call
raises `InvalidGitRepositoryError`) yields exactly the defaults. -/
theorem update_prompt_cache_vcs_defaults_witness :
    update_prompt_cache "/home/u" none true noRepoProbe initialPromptCache
      = Except.ok { initialPromptCache with
          cwd := "/home/u", venv := venvLabel none, git_status := "",
          git_dirty := false, git_ahead := 0, git_behind := 0 } :=
  (update_prompt_cache_vcs_defaults "/home/u" none noRepoProbe initialPromptCache).1 rfl

/-- Counterexample to C5 as stated: on branch `main` with a failing
ahead-count query (for example no matching remote branch), the refresh
keeps `git_status = "git:(main)"` instead of resetting all VCS fields to
their empty/zero defaults. -/
theorem update_prompt_cache_partial_reset_counterexample :
    update_prompt_cache "/repo" none true aheadFailProbe initialPromptCache
      = Except.ok (PromptCache.mk "/repo" "" "git:(main)" false 0 0) ∧
    "git:(main)" ≠ "" := ⟨rfl, by decide⟩

/-- C6: the completer yields nothing when the line is empty or the
character before the cursor is whitespace; with exactly one token it
yields, in order, the command names whose lowercase form has the current
word's lowercase form as a prefix, then the alias names under the same
rule annotated `(alias)`, then — when the word starts with `@` — the
bookmark names prefix-matching the text after `@` rendered with `@`; and
on input `se` with commands `search`, `serve`, `sysinfo` it yields
exactly `search` and `serve` in that order. -/
theorem completer_single_token_spec :
    (∀ env text, (text = "" ∨ lastCharIsSpace text = true) → get_completions env text = []) ∧
    (∀ env text w, text ≠ "" → lastCharIsSpace text = false → splitWS text = [w] →
      get_completions env text =
        ((env.commands.filter (fun c => strStartsWith (lowerStr c) (lowerStr w))).map
          (fun c => Candidate.mk c c))
        ++ (((env.aliases.map Prod.fst).filter
              (fun a => strStartsWith (lowerStr a) (lowerStr w))).map
          (fun a => Candidate.mk a (a ++ " (alias)")))
        ++ (if strStartsWith w "@" then
              ((env.bookmarks.map Prod.fst).filter
                (fun b => strStartsWith (lowerStr b) (lowerStr (dropStr 1 w)))).map
                (fun b => Candidate.mk ("@" ++ b) ("@" ++ b))
            else [])) ∧
    get_completions exampleCompleterEnv "se"
      = [Candidate.mk "search" "search", Candidate.mk "serve" "serve"] := by
  refine ⟨?_, ?_, by decide⟩
  · rintro env text (rfl | hws)
    · rfl
    · by_cases he : text = ""
      · simp [get_completions, he]
      · simp [get_completions, he, hws]
  · intro env text w hne hws hsplit
    simp [get_completions, hne, hws, hsplit]

/-- Witness for C6: completing `cl` against the full command list, one
alias and one bookmark produces exactly the three spec-ordered
segments. -/
theorem completer_single_token_spec_witness :
    get_completions richCompleterEnv "cl" =
      ((richCompleterEnv.commands.filter
          (fun c => strStartsWith (lowerStr c) (lowerStr "cl"))).map
        (fun c => Candidate.mk c c))
      ++ (((richCompleterEnv.aliases.map Prod.fst).filter
            (fun a => strStartsWith (lowerStr a) (lowerStr "cl"))).map
        (fun a => Candidate.mk a (a ++ " (alias)")))
      ++ (if strStartsWith "cl" "@" then
            ((richCompleterEnv.bookmarks.map Prod.fst).filter
              (fun b => strStartsWith (lowerStr b) (lowerStr (dropStr 1 "cl")))).map
              (fun b => Candidate.mk ("@" ++ b) ("@" ++ b))
          else []) :=
  completer_single_token_spec.2.1 richCompleterEnv "cl" "cl" (by decide) (by decide) (by decide)

theorem historyAppend_lt (h : List String) (l : String) (hlt : h.length < HISTORY_MAXLEN) :
    historyAppend h l = h ++ [l] := by
  simp only [historyAppend]
  have h0 : (h ++ [l]).length - HISTORY_MAXLEN = 0 := by
    simp only [List.length_append, List.length_singleton, HISTORY_MAXLEN] at *
    omega
  rw [h0, List.drop_zero]

theorem historyAppend_eq (h : List String) (l : String) (heq : h.length = HISTORY_MAXLEN) :
    historyAppend h l = h.tail ++ [l] := by
  simp only [historyAppend]
  have h1 : (h ++ [l]).length - HISTORY_MAXLEN = 1 := by
    simp only [List.length_append, List.length_singleton, HISTORY_MAXLEN] at *
    omega
  rw [h1]
  cases h with
  | nil => simp [HISTORY_MAXLEN] at heq
  | cons a t => rfl

theorem historyAppend_le (h : List String) (l : String) (hle : h.length ≤ HISTORY_MAXLEN) :
    (historyAppend h l).length ≤ HISTORY_MAXLEN := by
  simp only [historyAppend]
  rw [List.length_drop]
  simp only [List.length_append, List.length_singleton]
  omega

theorem historyAppend_getLast (h : List String) (l : String)
    (hle : h.length ≤ HISTORY_MAXLEN) :
    (historyAppend h l).getLast? = some l := by
  rcases lt_or_eq_of_le hle with hlt | heq
  · rw [historyAppend_lt h l hlt]
    exact List.getLast?_concat h
  · rw [historyAppend_eq h l heq]
    exact List.getLast?_concat h.tail

/-- C7: every `execute_command` call on a non-empty token sequence
appends the (space-joined) input line to `command_history` exactly once,
before and independently of any dispatch step or failure; the deque is
bounded at the fixed capacity 100, keeping its contents unchanged below
capacity and evicting the oldest record at capacity. -/
theorem history_append_bounded (st : ShellState) (h : List String)
    (c0 : String) (rest : List String) (hlen : h.length ≤ HISTORY_MAXLEN) :
    (execute_command st h (c0 :: rest)).1.getLast? = some (joinSpace (c0 :: rest)) ∧
    (execute_command st h (c0 :: rest)).1.length ≤ HISTORY_MAXLEN ∧
    (h.length < HISTORY_MAXLEN →
      (execute_command st h (c0 :: rest)).1 = h ++ [joinSpace (c0 :: rest)]) ∧
    (h.length = HISTORY_MAXLEN →
      (execute_command st h (c0 :: rest)).1 = h.tail ++ [joinSpace (c0 :: rest)]) := by
  rw [execute_command_fst]
  exact ⟨historyAppend_getLast h _ hlen, historyAppend_le h _ hlen,
    historyAppend_lt h _, historyAppend_eq h _⟩

/-- Witness for C7: from an empty history, the line `ls` (which falls
through to the external interpreter) is recorded once. -/
theorem history_append_bounded_witness :
    (execute_command emptyShell [] ["ls"]).1.getLast? = some (joinSpace ["ls"]) ∧
    (execute_command emptyShell [] ["ls"]).1 = [] ++ [joinSpace ["ls"]] := by
  have T := history_append_bounded emptyShell [] "ls" [] (by decide)
  exact ⟨T.1, T.2.2.1 (by decide)⟩

theorem saveStore_mem (ok : Bool) (s : Store) : (saveStore ok s).mem = s.mem := by
  cases ok <;> simp [saveStore]

theorem saveStore_disk_true (s : Store) : (saveStore true s).disk = s.mem := by
  simp [saveStore]

theorem saveStore_disk_false (s : Store) : (saveStore false s).disk = s.disk := by
  simp [saveStore]

theorem dictLookup_map_overwrite (m : List (String × String)) (k v : String)
    (hany : m.any (fun p => p.1 = k) = true) :
    dictLookup (m.map (fun p => if p.1 = k then (k, v) else p)) k = some v := by
  induction m with
  | nil => simp at hany
  | cons p rest ih =>
    obtain ⟨p1, p2⟩ := p
    by_cases hp : p1 = k
    · simp only [List.map_cons]
      rw [if_pos hp]
      simp [dictLookup]
    · have hr : rest.any (fun q => q.1 = k) = true := by
        rw [List.any_cons] at hany
        rcases Bool.or_eq_true_iff.mp hany with h1 | h2
        · exact absurd (of_decide_eq_true h1) hp
        · exact h2
      simp only [List.map_cons]
      rw [if_neg hp]
      simp only [dictLookup]
      rw [if_neg hp]
      exact ih hr

theorem dictLookup_append_new (m : List (String × String)) (k v : String)
    (hnone : m.any (fun p => p.1 = k) = false) :
    dictLookup (m ++ [(k, v)]) k = some v := by
  induction m with
  | nil => simp [dictLookup]
  | cons p rest ih =>
    obtain ⟨p1, p2⟩ := p
    rw [List.any_cons] at hnone
    obtain ⟨h1, h2⟩ := Bool.or_eq_false_iff.mp hnone
    have hp : ¬(p1 = k) := of_decide_eq_false h1
    rw [List.cons_append]
    simp only [dictLookup]
    rw [if_neg hp]
    exact ih h2

theorem dictLookup_insert (m : List (String × String)) (k v : String) :
    dictLookup (dictInsert m k v) k = some v := by
  unfold dictInsert
  by_cases hany : m.any (fun p => p.1 = k) = true
  · rw [if_pos hany]
    exact dictLookup_map_overwrite m k v hany
  · rw [if_neg hany]
    exact dictLookup_append_new m k v (Bool.eq_false_iff.mpr hany)

theorem dictLookup_remove (m : List (String × String)) (k : String) :
    dictLookup (dictRemove m k) k = none := by
  induction m with
  | nil => rfl
  | cons p rest ih =>
    by_cases hp : p.1 = k
    · simpa [dictRemove, List.filter_cons, hp] using ih
    · simpa [dictRemove, List.filter_cons, hp, dictLookup] using ih

/-- C8: every mutating call on the alias or bookmark store (create or
remove) immediately persists the full in-memory map to its backing file
when the write succeeds; a persistence failure is only reported and does
not roll back the in-memory mutation, so after a failed save the memory
map still contains the mutation while the disk copy is unchanged. -/
theorem store_mutation_persistence (saveOk : Bool) (s : Store) (name a t cwd : String)
    (rest : List String) (isDirF : String → Bool) (resolve : String → String) :
    (dictLookup (cmd_alias saveOk s (name :: a :: rest)).mem name
        = some (joinSpace (a :: rest)) ∧
      (saveOk = true →
        (cmd_alias saveOk s (name :: a :: rest)).disk
          = (cmd_alias saveOk s (name :: a :: rest)).mem) ∧
      (saveOk = false → (cmd_alias saveOk s (name :: a :: rest)).disk = s.disk)) ∧
    ((dictLookup s.mem name).isSome = true →
      dictLookup (cmd_unalias saveOk s (name :: rest)).mem name = none ∧
      (saveOk = true →
        (cmd_unalias saveOk s (name :: rest)).disk
          = (cmd_unalias saveOk s (name :: rest)).mem) ∧
      (saveOk = false → (cmd_unalias saveOk s (name :: rest)).disk = s.disk)) ∧
    (isDirF (resolve t) = true →
      dictLookup (cmd_bookmark isDirF resolve cwd saveOk s (name :: t :: rest)).mem name
        = some (resolve t) ∧
      (saveOk = true →
        (cmd_bookmark isDirF resolve cwd saveOk s (name :: t :: rest)).disk
          = (cmd_bookmark isDirF resolve cwd saveOk s (name :: t :: rest)).mem) ∧
      (saveOk = false →
        (cmd_bookmark isDirF resolve cwd saveOk s (name :: t :: rest)).disk = s.disk)) ∧
    ((dictLookup s.mem name).isSome = true →
      dictLookup (cmd_unbookmark saveOk s (name :: rest)).mem name = none ∧
      (saveOk = true →
        (cmd_unbookmark saveOk s (name :: rest)).disk
          = (cmd_unbookmark saveOk s (name :: rest)).mem) ∧
      (saveOk = false → (cmd_unbookmark saveOk s (name :: rest)).disk = s.disk)) := by
  refine ⟨⟨?_, ?_, ?_⟩, fun hpres => ⟨?_, ?_, ?_⟩, fun hdir => ⟨?_, ?_, ?_⟩,
    fun hpres => ⟨?_, ?_, ?_⟩⟩
  · simp [cmd_alias, saveStore_mem, dictLookup_insert]
  · rintro rfl; simp [cmd_alias, saveStore_disk_true, saveStore_mem]
  · rintro rfl; simp [cmd_alias, saveStore_disk_false]
  · simp [cmd_unalias, hpres, saveStore_mem, dictLookup_remove]
  · rintro rfl; simp [cmd_unalias, hpres, saveStore_disk_true, saveStore_mem]
  · rintro rfl; simp [cmd_unalias, hpres, saveStore_disk_false]
  · simp [cmd_bookmark, hdir, saveStore_mem, dictLookup_insert]
  · rintro rfl; simp [cmd_bookmark, hdir, saveStore_disk_true, saveStore_mem]
  · rintro rfl; simp [cmd_bookmark, hdir, saveStore_disk_false]
  · simp [cmd_unbookmark, hpres, saveStore_mem, dictLookup_remove]
  · rintro rfl; simp [cmd_unbookmark, hpres, saveStore_disk_true, saveStore_mem]
  · rintro rfl; simp [cmd_unbookmark, hpres, saveStore_disk_false]

/-- Witness for C8: overwriting alias `ll` while the save fails keeps the
new value in memory and the old map on disk; removing `ll` with a failed
save removes it from memory only. -/
theorem store_mutation_persistence_witness :
    dictLookup (cmd_alias false (Store.mk [("ll", "ls")] [("ll", "ls")]) ["ll", "dir"]).mem "ll"
      = some (joinSpace ["dir"]) ∧
    (cmd_alias false (Store.mk [("ll", "ls")] [("ll", "ls")]) ["ll", "dir"]).disk
      = (Store.mk [("ll", "ls")] [("ll", "ls")]).disk ∧
    dictLookup (cmd_unalias false (Store.mk [("ll", "ls")] [("ll", "ls")]) ["ll"]).mem "ll"
      = none := by
  have T := store_mutation_persistence false (Store.mk [("ll", "ls")] [("ll", "ls")])
    "ll" "dir" "/tmp" "/" [] (fun _ => true) id
  exact ⟨T.1.1, T.1.2.2 rfl, (T.2.1 (by decide)).1⟩

theorem dictInsert_of_fresh (m : List (String × String)) (k v : String)
    (hk : k ∉ m.map Prod.fst) :
    dictInsert m k v = m ++ [(k, v)] := by
  unfold dictInsert
  rw [if_neg]
  intro hany
  rcases List.any_eq_true.mp hany with ⟨p, hp, hpk⟩
  exact hk (List.mem_map.mpr ⟨p, hp, of_decide_eq_true hpk⟩)

theorem foldl_dictInsert_fresh (l : List (String × String)) :
    ∀ acc : List (String × String), (l.map Prod.fst).Nodup →
      (∀ x ∈ l.map Prod.fst, x ∉ acc.map Prod.fst) →
      l.foldl (fun m p => dictInsert m p.1 p.2) acc = acc ++ l := by
  induction l with
  | nil => intro acc _ _; simp
  | cons p rest ih =>
    intro acc hnd hdisj
    have hfresh : p.1 ∉ acc.map Prod.fst := hdisj p.1 (by simp)
    have hnd' : (rest.map Prod.fst).Nodup := by
      rw [List.map_cons] at hnd
      exact hnd.of_cons
    have hhead : p.1 ∉ rest.map Prod.fst := by
      rw [List.map_cons] at hnd
      exact (List.nodup_cons.mp hnd).1
    have hdisj' : ∀ x ∈ rest.map Prod.fst, x ∉ (acc ++ [p]).map Prod.fst := by
      intro x hx
      rw [List.map_append, List.mem_append]
      rintro (hxa | hxp)
      · exact hdisj x (by simp [hx]) hxa
      · simp only [List.map_cons, List.map_nil, List.mem_singleton] at hxp
        exact hhead (hxp ▸ hx)
    rw [List.foldl_cons, dictInsert_of_fresh acc p.1 p.2 hfresh]
    rw [ih (acc ++ [(p.1, p.2)]) hnd' hdisj']
    simp

theorem loadDict_self (m : List (String × String)) (hnd : (m.map Prod.fst).Nodup) :
    loadDict m = m := by
  unfold loadDict
  simpa using foldl_dictInsert_fresh m [] hnd (by simp)

theorem dictLookup_perm (m1 m2 : List (String × String)) (hp : m1.Perm m2) :
    ∀ (_ : (m2.map Prod.fst).Nodup) (k : String), dictLookup m1 k = dictLookup m2 k := by
  induction hp with
  | nil => intro _ _; rfl
  | cons x p ih =>
    intro hnd k
    obtain ⟨x1, x2⟩ := x
    have hnd' := by rw [List.map_cons] at hnd; exact hnd.of_cons
    by_cases hx : x1 = k
    · simp [dictLookup, hx]
    · simp only [dictLookup]
      rw [if_neg hx, if_neg hx]
      exact ih hnd' k
  | swap x y l =>
    intro hnd k
    obtain ⟨x1, x2⟩ := x
    obtain ⟨y1, y2⟩ := y
    have hxy : x1 ≠ y1 := by
      simp only [List.map_cons, List.nodup_cons, List.mem_cons] at hnd
      exact fun h => hnd.1 (Or.inl h)
    by_cases hx : x1 = k <;> by_cases hy : y1 = k
    · exact absurd (hx.trans hy.symm) hxy
    · simp only [dictLookup]
      rw [if_neg hy, if_pos hx, if_pos hx]
    · simp only [dictLookup]
      rw [if_pos hy, if_neg hx, if_pos hy]
    · simp only [dictLookup]
      rw [if_neg hy, if_neg hx, if_neg hx, if_neg hy]
  | trans p q ih1 ih2 =>
    intro hnd k
    have hnd2 := ((q.map Prod.fst).nodup_iff).mpr hnd
    exact (ih1 hnd2 k).trans (ih2 hnd k)

/-- C9: saving an alias or bookmark map with `json.dump` and loading it
back with `json.load` reproduces exactly the same key/value pairs and
the same entry count, independent of the on-disk ordering: loading the
dumped list itself is the identity, and loading any permutation of it
yields a dict with the same size and the same lookups. -/
theorem store_round_trip (m m2 : List (String × String))
    (hnd : (m.map Prod.fst).Nodup) (hperm : m2.Perm m) :
    loadDict m = m ∧
    (loadDict m2).length = m.length ∧
    (∀ k, dictLookup (loadDict m2) k = dictLookup m k) := by
  have hnd2 : (m2.map Prod.fst).Nodup := ((hperm.map Prod.fst).nodup_iff).mpr hnd
  have h2 : loadDict m2 = m2 := loadDict_self m2 hnd2
  refine ⟨loadDict_self m hnd, ?_, ?_⟩
  · rw [h2]
    exact hperm.length_eq
  · rw [h2]
    exact dictLookup_perm m2 m hperm hnd

/-- Witness for C9: a two-entry map survives the round trip and its
reordered on-disk form loads to the same two lookups. -/
theorem store_round_trip_witness :
    loadDict [("a", "1"), ("b", "2")] = [("a", "1"), ("b", "2")] ∧
    (loadDict [("b", "2"), ("a", "1")]).length = 2 ∧
    dictLookup (loadDict [("b", "2"), ("a", "1")]) "a"
      = dictLookup [("a", "1"), ("b", "2")] "a" := by
  have T := store_round_trip [("a", "1"), ("b", "2")] [("b", "2"), ("a", "1")]
    (by decide) (List.Perm.swap ("a", "1") ("b", "2") [])
  exact ⟨T.1, by simpa using T.2.1, T.2.2 "a"⟩
